import Mathlib

/-!
Verification of the voice-command interpretation engine of the
surgical-command-center repository (dragon-integration).

Python strings are embedded as `List Char` (`Str`); the parser,
normalizers and buffer handlers of `vascular_commands.py`,
`dragon_headless.py` and `dragon_mvp.py` are translated function by
function.  Helper functions mirror the exact Python string primitives
used by the source: `in` (substring containment), `str.replace` with
and without a count, `str.lower`, `str.strip`, and the few regular
expressions, specialised to the patterns the source uses.
-/

set_option maxHeartbeats 1000000

abbrev Str := List Char

/-- Python `pat in hay` (substring containment). -/
def containsSub (pat : Str) : Str → Bool
  | [] => pat.isEmpty
  | c :: rest => pat.isPrefixOf (c :: rest) || containsSub pat rest

/-- Number of positions of `hay` at which `pat` occurs. -/
def countOcc (pat : Str) : Str → Nat
  | [] => if pat.isEmpty then 1 else 0
  | c :: rest => (if pat.isPrefixOf (c :: rest) then 1 else 0) + countOcc pat rest

/-- Python `hay.replace(pat, new, 1)`: replace the first, leftmost
occurrence of `pat`, leave the string unchanged when `pat` is absent.
(Call sites only use non-empty brace-wrapped patterns.) -/
def replaceFirst (pat new : Str) : Str → Str
  | [] => []
  | c :: rest =>
    if pat.isPrefixOf (c :: rest) then new ++ (c :: rest).drop pat.length
    else c :: replaceFirst pat new rest

/-- Core of Python `hay.replace(pat, new)` for a non-empty pattern
`p :: ps`: replace every occurrence, scanning left to right and never
rescanning replaced text.  `skip` counts characters of an occurrence
already consumed that must still be dropped (structural recursion so
that the kernel can evaluate it). -/
def replaceAllGo (p : Char) (ps new : Str) (skip : Nat) : Str → Str
  | [] => []
  | c :: rest =>
    match skip with
    | k + 1 => replaceAllGo p ps new k rest
    | 0 =>
      if (p :: ps).isPrefixOf (c :: rest) then
        new ++ replaceAllGo p ps new ps.length rest
      else c :: replaceAllGo p ps new 0 rest

/-- Python `hay.replace(pat, new)` (all occurrences).  The source only
calls it with non-empty patterns, for which `replaceAllGo` is exact. -/
def pyReplaceAll (hay pat new : Str) : Str :=
  match pat with
  | [] => hay
  | p :: ps => replaceAllGo p ps new 0 hay

/-- Python ASCII `\s` class, as used by `str.strip` and the regexes. -/
def isPySpace (c : Char) : Bool :=
  c = ' ' || c = '\t' || c = '\n' || c = '\r' || c = '\x0b' || c = '\x0c'

/-- Python `str.lower()` (ASCII). -/
def pyLower (v : Str) : Str := v.map Char.toLower

/-- Python `str.strip()` (ASCII whitespace). -/
def pyStrip (v : Str) : Str :=
  ((v.dropWhile isPySpace).reverse.dropWhile isPySpace).reverse

/-- Replace each space by an underscore: Python `x.replace(" ", "_")`. -/
def underscore (v : Str) : Str := v.map (fun c => if c = ' ' then '_' else c)

/-- First match of the regex `\d+\.?\d*` in `v`
(`re.findall(r'\d+\.?\d*', value)[0]` when a digit exists):
maximal digit run, then an optional dot followed by a maximal digit run. -/
def firstNumber : Str → Option Str
  | [] => none
  | c :: rest =>
    if c.isDigit then
      let ds := (c :: rest).takeWhile Char.isDigit
      match (c :: rest).drop ds.length with
      | '.' :: rest2 => some (ds ++ '.' :: rest2.takeWhile Char.isDigit)
      | _ => some ds
    else firstNumber rest

/-- First match of the regex `\d+` in `v`. -/
def firstIntToken : Str → Option Str
  | [] => none
  | c :: rest =>
    if c.isDigit then some ((c :: rest).takeWhile Char.isDigit)
    else firstIntToken rest

/-- Embedding of `VascularCommandParser._normalize_length`. -/
def normalize_length (value : Str) : Str :=
  match firstNumber value with
  | some n =>
    if containsSub ("centimeter".data) value || containsSub ("cm".data) value then
      n ++ (" cm".data)
    else if containsSub ("millimeter".data) value || containsSub ("mm".data) value then
      n ++ (" mm".data)
    else n ++ (" cm".data)
  | none => value

/-- The `treatments` table of `_normalize_treatment`, in Python dict
insertion order. -/
def treatmentsTable : List (Str × Str) :=
  [(("pta".data), ("PTA".data)), (("angioplasty".data), ("PTA".data)),
   (("balloon".data), ("PTA".data)), (("stent".data), ("Stent".data)),
   (("stenting".data), ("Stent".data)), (("atherectomy".data), ("Atherectomy".data)),
   (("tpa".data), ("TPA".data)), (("thrombolysis".data), ("Mechanical Thrombolysis".data))]

/-- Embedding of `VascularCommandParser._normalize_treatment`. -/
def normalize_treatment (value : Str) : Str :=
  let lv := pyLower value
  if (containsSub ("pta".data) lv || containsSub ("angioplasty".data) lv)
      && containsSub ("stent".data) lv then
    ("PTA + Stent".data)
  else
    match treatmentsTable.findSome?
        (fun kv => if containsSub kv.1 lv then some kv.2 else none) with
    | some n => n
    | none => value

/-- Embedding of `VascularCommandParser._normalize_tasc`:
first `[a-dA-D]` character upper-cased, else `value.upper()`. -/
def normalize_tasc (value : Str) : Str :=
  match value.find? (fun c =>
      (97 ≤ c.toNat && c.toNat ≤ 100) || (65 ≤ c.toNat && c.toNat ≤ 68)) with
  | some c => [c.toUpper]
  | none => value.map Char.toUpper

/-- Embedding of `VascularCommandParser._normalize_calcification`. -/
def normalize_calcification (value : Str) : Str :=
  let lv := pyLower value
  if containsSub ("none".data) lv then ("none".data)
  else if containsSub ("mild".data) lv then ("mild".data)
  else if containsSub ("moderate".data) lv then ("moderate".data)
  else if containsSub ("severe".data) lv || containsSub ("heavy".data) lv then ("severe".data)
  else value

/-- Embedding of `VascularCommandParser._normalize_side`. -/
def normalize_side (value : Str) : Str :=
  let lv := pyLower value
  if containsSub ("left".data) lv then ("left".data)
  else if containsSub ("right".data) lv then ("right".data)
  else if containsSub ("both".data) lv || containsSub ("bilateral".data) lv then
    ("bilateral".data)
  else value

/-- Embedding of `VascularCommandParser._normalize_access`. -/
def normalize_access (value : Str) : Str :=
  let lv := pyLower value
  if containsSub ("femoral".data) lv then ("femoral".data)
  else if containsSub ("radial".data) lv then ("radial".data)
  else if containsSub ("brachial".data) lv then ("brachial".data)
  else if containsSub ("pop".data) lv || containsSub ("popliteal".data) lv then
    ("popliteal".data)
  else value

/-- Embedding of `VascularCommandParser._normalize_sheath`. -/
def normalize_sheath (value : Str) : Str :=
  match firstIntToken value with
  | some n => n ++ ("fr".data)
  | none => value

/-- Embedding of `VascularCommandParser._normalize_closure`. -/
def normalize_closure (value : Str) : Str :=
  let lv := pyLower value
  if containsSub ("mynx".data) lv then ("mynx".data)
  else if containsSub ("manual".data) lv || containsSub ("pressure".data) lv then
    ("manual".data)
  else value

/-- Embedding of `VascularCommandParser.vessel_names`, in source order. -/
def vessel_names : List Str :=
  [("common iliac".data), ("external iliac".data), ("common femoral".data),
   ("superficial femoral".data), ("profunda".data), ("popliteal".data),
   ("anterior tibial".data), ("posterior tibial".data), ("peroneal".data),
   ("tibial peroneal trunk".data)]

/-- The command variants returned by the parser. -/
inductive Cmd
  | macroIns (macroName : Str)
  | setField (field value : Str)
  | setVesselField (vessel prop value : Str)
  | saveProcedure
  | clearBuffer
  | showFields
deriving DecidableEq

/-- The vessel loop of `_parse_set_command`: first vessel of the catalog
contained in `field_name` whose property keyword also matches; a vessel
match without a property keyword falls through to the next iteration
(and ultimately out of the loop), exactly as in the source. -/
def vesselLoop (field_name value : Str) : List Str → Option Cmd
  | [] => none
  | v :: vs =>
    if containsSub v field_name then
      if containsSub ("occlusion".data) field_name
          || containsSub ("length".data) field_name then
        some (.setVesselField (underscore v) ("occlusion_length".data)
          (normalize_length value))
      else if containsSub ("treatment".data) field_name then
        some (.setVesselField (underscore v) ("treatment".data)
          (normalize_treatment value))
      else if containsSub ("tasc".data) field_name then
        some (.setVesselField (underscore v) ("tasc".data) (normalize_tasc value))
      else if containsSub ("calcification".data) field_name then
        some (.setVesselField (underscore v) ("calcification".data)
          (normalize_calcification value))
      else vesselLoop field_name value vs
    else vesselLoop field_name value vs

/-- Embedding of `VascularCommandParser._parse_set_command` (the resolver `resolve`
of the specification). -/
def parse_set_command (field_name value : Str) : Cmd :=
  match vesselLoop field_name value vessel_names with
  | some c => c
  | none =>
    if containsSub ("side".data) field_name
        || containsSub ("laterality".data) field_name then
      .setField ("procedure_side".data) (normalize_side value)
    else if containsSub ("access".data) field_name then
      .setField ("access_site".data) (normalize_access value)
    else if containsSub ("sheath".data) field_name then
      .setField ("sheath_size".data) (normalize_sheath value)
    else if containsSub ("closure".data) field_name
        || containsSub ("mynx".data) field_name then
      .setField ("closure_method".data) (normalize_closure value)
    else .setField (underscore field_name) value

/-- The regex `.` metacharacter (no DOTALL flag): any char but newline. -/
def dotC (c : Char) : Bool := !(c = '\n')

/-- The candidate lengths for a greedy `\s+` at the head of `cs`,
longest first (the backtracking order of the regex engine). -/
def spaceRuns (cs : Str) : List Nat :=
  let mx := (cs.takeWhile isPySpace).length
  (List.range mx).map (fun j => mx - j)

/-- Match `\s+(?:to|is|as)\s+(.+)` at the head of `cs`, returning the
second capture group: both `\s+` are greedy (longest split first), the
alternation is tried in source order, and the trailing `(.+)` is greedy
and need not reach the end of the string. -/
def matchToRest (cs : Str) : Option Str :=
  (spaceRuns cs).findSome? fun k =>
    let r1 := cs.drop k
    [("to".data), ("is".data), ("as".data)].findSome? fun w =>
      if w.isPrefixOf r1 then
        let r2 := r1.drop 2
        (spaceRuns r2).findSome? fun k2 =>
          let g2 := (r2.drop k2).takeWhile dotC
          if g2.isEmpty then none else some g2
      else none

/-- Match `(.+?)\s+(?:to|is|as)\s+(.+)` at the head of `cs`: the lazy
first group grows one character at a time (each char matching `.`),
handing the remainder to `matchToRest`. -/
def lazyG1 (cs : Str) : Option (Str × Str) :=
  let mx := (cs.takeWhile dotC).length
  ((List.range mx).map (· + 1)).findSome? fun n =>
    (matchToRest (cs.drop n)).map (fun g2 => (cs.take n, g2))

/-- Tail of the set/fill regex after the keyword: `\s+` then `lazyG1`. -/
def afterKw (cs : Str) : Option (Str × Str) :=
  (spaceRuns cs).findSome? fun k => lazyG1 (cs.drop k)

/-- Embedding of `re.match(r"(?:set|fill)\s+(.+?)\s+(?:to|is|as)\s+(.+)", text)`:
anchored at the start of the string; returns the two capture groups.
The two alternatives cannot both start a string, so trying `set` before
`fill` is the full backtracking behaviour. -/
def matchSetFill (cs : Str) : Option (Str × Str) :=
  if ("set".data).isPrefixOf cs then afterKw (cs.drop 3)
  else if ("fill".data).isPrefixOf cs then afterKw (cs.drop 4)
  else none

/-- Python `text.lower().strip()`, the cleaned transcript `parse` matches on. -/
def cleanText (text : Str) : Str := pyStrip (pyLower text)

/-- The insert-branch guard of `parse`: the cleaned text starts with
`"insert "` and the remaining macro name mentions vascular/procedure. -/
def insertGuard (tc : Str) : Bool :=
  let mn := pyStrip (pyReplaceAll tc ("insert ".data) [])
  ("insert ".data).isPrefixOf tc
    && (containsSub ("vascular".data) mn || containsSub ("procedure".data) mn)

/-- Embedding of `VascularCommandParser.parse` (the classifier `classify` of the
specification): `none` means the text is narration, not a command. -/
def parse (text : Str) : Option Cmd :=
  let tc := cleanText text
  if insertGuard tc then
    some (.macroIns ("vascular_procedure".data))
  else
    match matchSetFill tc with
    | some (f, v) => some (parse_set_command (pyStrip f) (pyStrip v))
    | none =>
      if containsSub ("save procedure".data) tc || containsSub ("save note".data) tc
          || containsSub ("complete procedure".data) tc then
        some .saveProcedure
      else if containsSub ("clear buffer".data) tc
          || containsSub ("start over".data) tc then
        some .clearBuffer
      else if containsSub ("show fields".data) tc
          || containsSub ("what fields".data) tc then
        some .showFields
      else none

/-- The report each buffer operation surfaces to its caller
(print/status line in the sources). -/
inductive Report
  | success
  | fieldNotPresent
  | macroNotFound
deriving DecidableEq

/-- The placeholder literal for a field: Python `f"{{{field}}}"`. -/
def placeholderOf (field : Str) : Str := '{' :: field ++ ['}']

/-- Embedding of `HeadlessDragonServer.handle_set_field` (`dragon_headless.py`),
acting on an explicit buffer. -/
def handle_set_field (buf field value : Str) : Str × Report :=
  let ph := placeholderOf field
  if containsSub ph buf then (replaceFirst ph value buf, .success)
  else (buf, .fieldNotPresent)

/-- Embedding of `HeadlessDragonServer.handle_set_vessel_field` (`dragon_headless.py`):
exact `{vessel_prop}` placeholder first, then the coarse `{vessel}`
placeholder with a synthesized phrase, else a field-not-present report. -/
def handle_set_vessel_field (buf vessel prop value : Str) : Str × Report :=
  let ph := placeholderOf (vessel ++ '_' :: prop)
  if containsSub ph buf then (replaceFirst ph value buf, .success)
  else
    let alt := placeholderOf vessel
    if containsSub alt buf then
      let vtext :=
        if prop = ("occlusion_length".data) then ("Occlusion: ".data) ++ value
        else ("Treatment: ".data) ++ value
      (replaceFirst alt vtext buf, .success)
    else (buf, .fieldNotPresent)

/-- Embedding of `DragonDictationMVP.handle_set_vessel_field` (`dragon_mvp.py`): same
substitution logic on the text widget content, but with NO else branch
when neither placeholder is present — the buffer is unchanged and no
status is reported (`none`). -/
def mvp_handle_set_vessel_field (buf vessel prop value : Str) :
    Str × Option Report :=
  let ph := placeholderOf (vessel ++ '_' :: prop)
  if containsSub ph buf then (replaceFirst ph value buf, some .success)
  else
    let alt := placeholderOf vessel
    if containsSub alt buf then
      let vtext :=
        if prop = ("occlusion_length".data) then ("Occlusion: ".data) ++ value
        else ("Treatment: ".data) ++ value
      (replaceFirst alt vtext buf, some .success)
    else (buf, none)

/-- Embedding of `HeadlessDragonServer.handle_insert_macro` (`dragon_headless.py`):
`macros` is the mapping loaded from `config/macros.json`, `today` the
value of `datetime.now().strftime("%B %d, %Y")`.  On success the whole
buffer is overwritten by the template with every `{date}` replaced. -/
def handle_insert_macro_hl (macros : List (Str × Str)) (today buf macroName : Str) :
    Str × Report :=
  match macros.lookup macroName with
  | some t =>
    (if containsSub ("{date}".data) t then pyReplaceAll t ("{date}".data) today else t,
     .success)
  | none => (buf, .macroNotFound)

/-- Narration fallback of `HeadlessDragonServer.process_command`:
`self.current_buffer += " " + text`. -/
def append_narration (buf text : Str) : Str := buf ++ (" ".data) ++ text

/-- Vessel targeted by a resolved command, if any. -/
def cmdVessel : Cmd → Option Str
  | .setVesselField v _ _ => some v
  | _ => none

/-- Is the command one of the two set-field variants? -/
def isSetCmd : Cmd → Bool
  | .setField _ _ => true
  | .setVesselField _ _ _ => true
  | _ => false

/-- Does the classifier result carry a set-field variant? -/
def isSetResult : Option Cmd → Bool
  | some c => isSetCmd c
  | none => false

/-- The property-keyword test of the vessel loop, as one predicate. -/
def hasPropKeyword (field_name : Str) : Bool :=
  containsSub ("occlusion".data) field_name
    || containsSub ("length".data) field_name
    || containsSub ("treatment".data) field_name
    || containsSub ("tasc".data) field_name
    || containsSub ("calcification".data) field_name

/-- The non-vessel priority-keyword test of `_parse_set_command`. -/
def keywordHit (field_name : Str) : Bool :=
  containsSub ("side".data) field_name
    || containsSub ("laterality".data) field_name
    || containsSub ("access".data) field_name
    || containsSub ("sheath".data) field_name
    || containsSub ("closure".data) field_name
    || containsSub ("mynx".data) field_name

/-! ### Lemmas about the string primitives -/

/-- A successful `isPrefixOf` decomposes the string. -/
theorem eq_append_of_isPrefixOf {p l : Str} (h : p.isPrefixOf l = true) :
    l = p ++ l.drop p.length := by
  induction p generalizing l with
  | nil => simp
  | cons a as ih =>
    cases l with
    | nil => simp [List.isPrefixOf] at h
    | cons b bs =>
      simp only [List.isPrefixOf, Bool.and_eq_true, beq_iff_eq] at h
      obtain ⟨rfl, h2⟩ := h
      simpa using ih h2

/-- A prefix of an initial segment is a prefix of the segment. -/
theorem isPrefixOf_append_left {p a b : Str} (h : p.isPrefixOf (a ++ b) = true)
    (hl : p.length ≤ a.length) : p.isPrefixOf a = true := by
  induction p generalizing a with
  | nil => simp
  | cons x xs ih =>
    cases a with
    | nil => simp at hl
    | cons y ys =>
      simp only [List.cons_append, List.isPrefixOf, Bool.and_eq_true] at h ⊢
      exact ⟨h.1, ih h.2 (by simpa using hl)⟩

/-- Membership travels along a prefix. -/
theorem mem_of_isPrefixOf {c : Char} {p l : Str} (hc : c ∈ p)
    (h : p.isPrefixOf l = true) : c ∈ l := by
  induction p generalizing l with
  | nil => simp at hc
  | cons a as ih =>
    cases l with
    | nil => simp [List.isPrefixOf] at h
    | cons b bs =>
      simp only [List.isPrefixOf, Bool.and_eq_true, beq_iff_eq] at h
      rcases List.mem_cons.mp hc with rfl | hc
      · exact h.1 ▸ List.mem_cons_self _ _
      · exact List.mem_cons_of_mem _ (ih hc h.2)

/-- A pattern opening with a brace cannot start inside brace-free text:
containment in `x ++ t` reduces to containment in `t`. -/
theorem containsSub_append_of_brace_notMem {pt x t : Str} (hx : '{' ∉ x) :
    containsSub ('{' :: pt) (x ++ t) = containsSub ('{' :: pt) t := by
  induction x with
  | nil => rfl
  | cons a x' ih =>
    have ha : a ≠ '{' := fun h => hx (h ▸ List.mem_cons_self _ _)
    have hx' : '{' ∉ x' := fun h => hx (List.mem_cons_of_mem _ h)
    simp only [List.cons_append, containsSub, List.isPrefixOf]
    have hb : ('{' == a) = false := by
      simpa using fun h => ha h.symm
    simp only [hb, Bool.false_and, Bool.false_or]
    exact ih hx' 

/-- Counting version of `containsSub_append_of_brace_notMem`. -/
theorem countOcc_append_of_brace_notMem {pt x t : Str} (hx : '{' ∉ x) :
    countOcc ('{' :: pt) (x ++ t) = countOcc ('{' :: pt) t := by
  induction x with
  | nil => rfl
  | cons a x' ih =>
    have ha : a ≠ '{' := fun h => hx (h ▸ List.mem_cons_self _ _)
    have hx' : '{' ∉ x' := fun h => hx (List.mem_cons_of_mem _ h)
    have hb : ('{' == a) = false := by
      simpa using fun h => ha h.symm
    simp [countOcc, List.isPrefixOf, hb, ih hx']

/-- Prepending text never removes occurrences of the tail. -/
theorem countOcc_le_append {pat x t : Str} :
    countOcc pat t ≤ countOcc pat (x ++ t) := by
  induction x with
  | nil => exact Nat.le_refl _
  | cons a x' ih =>
    simp only [List.cons_append, countOcc]
    exact Nat.le_trans ih (Nat.le_add_left _ _)

/-- A pending skip in `replaceAllGo` is the same as restarting after
dropping that many characters. -/
theorem replaceAllGo_skip (p : Char) (ps new : Str) :
    ∀ (l : Str) (k : Nat),
      replaceAllGo p ps new k l = replaceAllGo p ps new 0 (l.drop k) := by
  intro l
  induction l with
  | nil => intro k; cases k <;> rfl
  | cons c rest ih =>
    intro k
    cases k with
    | zero => rfl
    | succ j => simpa [replaceAllGo] using ih j

/-- One-step unfolding of the replace-all scan. -/
theorem replaceAllGo_cons (p : Char) (ps new : Str) (c : Char) (rest : Str) :
    replaceAllGo p ps new 0 (c :: rest) =
      if (p :: ps).isPrefixOf (c :: rest) then
        new ++ replaceAllGo p ps new 0 (rest.drop ps.length)
      else c :: replaceAllGo p ps new 0 rest := by
  by_cases h : (p :: ps).isPrefixOf (c :: rest) = true
  · simp [replaceAllGo, h, replaceAllGo_skip]
  · simp [replaceAllGo, h]

/-- Replacing an absent pattern is the identity. -/
theorem replaceAll_of_not_contains {pat new : Str} :
    ∀ {hay : Str}, containsSub pat hay = false → pyReplaceAll hay pat new = hay := by
  cases pat with
  | nil => intro hay _; rfl
  | cons p ps =>
    intro hay
    induction hay with
    | nil => intro _; rfl
    | cons c rest ih =>
      intro h
      simp only [containsSub, Bool.or_eq_false_iff] at h
      simp only [pyReplaceAll] at ih ⊢
      rw [replaceAllGo_cons, if_neg (by simp [h.1]), ih h.2]

/-- If a brace-closed suffix pattern `r` (too short to stick out of the
substituted text) is a prefix of the once-replaced string, it already was
a prefix of the original: the substituted text `new` contains no closing
brace, so `r` cannot begin inside it. -/
theorem isPrefixOf_replaceFirst_rev {pat new : Str} (hnew : '}' ∉ new) :
    ∀ (hay r r0 : Str), r = r0 ++ ['}'] → r.length ≤ new.length →
      r.isPrefixOf (replaceFirst pat new hay) = true → r.isPrefixOf hay = true := by
  intro hay
  induction hay with
  | nil =>
    intro r r0 hr _ h
    subst hr
    cases r0 <;> simp [replaceFirst, List.isPrefixOf] at h
  | cons c rest ih =>
    intro r r0 hr hl h
    by_cases hp : pat.isPrefixOf (c :: rest) = true
    · simp only [replaceFirst, if_pos hp] at h
      have hrn : r.isPrefixOf new = true := isPrefixOf_append_left h hl
      have : ('}' : Char) ∈ new :=
        mem_of_isPrefixOf (by rw [hr]; exact List.mem_append_right _ (by simp)) hrn
      exact absurd this hnew
    · simp only [replaceFirst, if_neg hp] at h
      cases r0 with
      | nil =>
        subst hr
        simp only [List.nil_append, List.isPrefixOf, Bool.and_eq_true] at h ⊢
        exact ⟨h.1, by simp⟩
      | cons a r0' =>
        subst hr
        simp only [List.cons_append, List.isPrefixOf, Bool.and_eq_true] at h ⊢
        refine ⟨h.1, ih _ r0' rfl ?_ h.2⟩
        simp only [List.append_eq, List.length_cons, List.length_append,
          List.length_singleton] at hl ⊢
        omega

/-- Analogue of `isPrefixOf_replaceFirst_rev` for the replace-all scan. -/
theorem isPrefixOf_replaceAll_rev {p : Char} {ps new : Str} (hnew : '}' ∉ new) :
    ∀ (hay r r0 : Str), r = r0 ++ ['}'] → r.length ≤ new.length →
      r.isPrefixOf (replaceAllGo p ps new 0 hay) = true →
      r.isPrefixOf hay = true := by
  intro hay
  induction hay with
  | nil =>
    intro r r0 hr _ h
    subst hr
    cases r0 <;> simp [replaceAllGo, List.isPrefixOf] at h
  | cons c rest ih =>
    intro r r0 hr hl h
    rw [replaceAllGo_cons] at h
    by_cases hp : (p :: ps).isPrefixOf (c :: rest) = true
    · rw [if_pos hp] at h
      have hrn : r.isPrefixOf new = true := isPrefixOf_append_left h hl
      have : ('}' : Char) ∈ new :=
        mem_of_isPrefixOf (by rw [hr]; exact List.mem_append_right _ (by simp)) hrn
      exact absurd this hnew
    · rw [if_neg hp] at h
      cases r0 with
      | nil =>
        subst hr
        simp only [List.nil_append, List.isPrefixOf, Bool.and_eq_true] at h ⊢
        exact ⟨h.1, by simp⟩
      | cons a r0' =>
        subst hr
        simp only [List.cons_append, List.isPrefixOf, Bool.and_eq_true] at h ⊢
        refine ⟨h.1, ih _ r0' rfl ?_ h.2⟩
        simp only [List.append_eq, List.length_cons, List.length_append,
          List.length_singleton] at hl ⊢
        omega

/-- After replacing every occurrence of the placeholder
`'{' :: f ++ ['}']` by brace-free text `new` at least as long as the
placeholder's interior, no occurrence of the placeholder remains. -/
theorem replaceAll_no_residual {f new : Str}
    (hn1 : '{' ∉ new) (hn2 : '}' ∉ new)
    (hlen : f.length + 1 ≤ new.length) :
    ∀ (n : Nat) (hay : Str), hay.length ≤ n →
      containsSub ('{' :: (f ++ ['}']))
        (replaceAllGo '{' (f ++ ['}']) new 0 hay) = false := by
  intro n
  induction n with
  | zero =>
    intro hay hl
    have : hay = [] := List.length_eq_zero.mp (Nat.le_zero.mp hl)
    subst this
    simp [replaceAllGo, containsSub]
  | succ n ih =>
    intro hay hl
    cases hay with
    | nil => simp [replaceAllGo, containsSub]
    | cons c rest =>
      rw [replaceAllGo_cons]
      by_cases hp : ('{' :: (f ++ ['}'])).isPrefixOf (c :: rest) = true
      · rw [if_pos hp, containsSub_append_of_brace_notMem hn1]
        refine ih _ ?_
        simp only [List.length_cons] at hl
        have := List.length_drop (f ++ ['}']).length rest
        omega
      · rw [if_neg hp]
        have hT := ih rest (by simp only [List.length_cons] at hl; omega)
        simp only [containsSub, Bool.or_eq_false_iff]
        refine ⟨?_, hT⟩
        by_contra hq
        have hq' : ('{' :: (f ++ ['}'])).isPrefixOf
            (c :: replaceAllGo '{' (f ++ ['}']) new 0 rest) = true := by
          revert hq
          cases h : ('{' :: (f ++ ['}'])).isPrefixOf
            (c :: replaceAllGo '{' (f ++ ['}']) new 0 rest) <;> simp
        simp only [List.isPrefixOf, Bool.and_eq_true, beq_iff_eq] at hq'
        have htail := isPrefixOf_replaceAll_rev hn2 rest (f ++ ['}']) f rfl
          (by simp only [List.length_append, List.length_singleton]; omega) hq'.2
        have : ('{' :: (f ++ ['}'])).isPrefixOf (c :: rest) = true := by
          simp only [List.isPrefixOf, Bool.and_eq_true, beq_iff_eq]
          exact ⟨hq'.1, htail⟩
        exact hp this

/-- A successful single substitution of the placeholder
`'{' :: f ++ ['}']` by a long enough brace-free value removes exactly
one occurrence of the placeholder. -/
theorem countOcc_replaceFirst {f new : Str}
    (hf1 : '{' ∉ f) (hn1 : '{' ∉ new) (hn2 : '}' ∉ new)
    (hlen : f.length + 1 ≤ new.length) :
    ∀ hay, containsSub ('{' :: (f ++ ['}'])) hay = true →
      countOcc ('{' :: (f ++ ['}']))
          (replaceFirst ('{' :: (f ++ ['}'])) new hay) + 1
        = countOcc ('{' :: (f ++ ['}'])) hay := by
  intro hay
  induction hay with
  | nil => intro h; simp [containsSub] at h
  | cons c rest ih =>
    intro h
    by_cases hp : ('{' :: (f ++ ['}'])).isPrefixOf (c :: rest) = true
    · simp only [replaceFirst, if_pos hp]
      have hdec := eq_append_of_isPrefixOf hp
      generalize hD : (c :: rest).drop ('{' :: (f ++ ['}'])).length = D at hdec ⊢
      rw [countOcc_append_of_brace_notMem hn1]
      have hrest : rest = (f ++ ['}']) ++ D := by
        simp only [List.cons_append] at hdec
        exact (List.cons.inj hdec).2
      have hbrace : '{' ∉ f ++ ['}'] := by
        intro hm
        rcases List.mem_append.mp hm with hm | hm
        · exact hf1 hm
        · simp at hm
      have h1 : countOcc ('{' :: (f ++ ['}'])) rest
          = countOcc ('{' :: (f ++ ['}'])) D := by
        rw [hrest, countOcc_append_of_brace_notMem hbrace]
      have h2 : countOcc ('{' :: (f ++ ['}'])) (c :: rest)
          = 1 + countOcc ('{' :: (f ++ ['}'])) rest := by
        simp [countOcc, hp]
      omega
    · simp only [replaceFirst, if_neg hp]
      have hrest : containsSub ('{' :: (f ++ ['}'])) rest = true := by
        simp only [containsSub, hp, Bool.false_or] at h
        exact h
      have hnp : ('{' :: (f ++ ['}'])).isPrefixOf
          (c :: replaceFirst ('{' :: (f ++ ['}'])) new rest) = false := by
        by_contra hq
        have hq' : ('{' :: (f ++ ['}'])).isPrefixOf
            (c :: replaceFirst ('{' :: (f ++ ['}'])) new rest) = true := by
          revert hq
          cases ('{' :: (f ++ ['}'])).isPrefixOf
            (c :: replaceFirst ('{' :: (f ++ ['}'])) new rest) <;> simp
        simp only [List.isPrefixOf, Bool.and_eq_true, beq_iff_eq] at hq'
        have htail := isPrefixOf_replaceFirst_rev hn2 rest (f ++ ['}']) f rfl
          (by simp only [List.length_append, List.length_singleton]; omega) hq'.2
        have : ('{' :: (f ++ ['}'])).isPrefixOf (c :: rest) = true := by
          simp only [List.isPrefixOf, Bool.and_eq_true, beq_iff_eq]
          exact ⟨hq'.1, htail⟩
        simp [this] at hp
      simp only [countOcc, hp, hnp]
      simpa using ih hrest

/-- A single substitution by a long enough brace-free value never adds
occurrences of any placeholder whose interior is at most as long as the
value (the substituted text cannot take part in such an occurrence). -/
theorem countOcc_replaceFirst_le {g pat new : Str}
    (hn1 : '{' ∉ new) (hn2 : '}' ∉ new) (hlen : g.length + 1 ≤ new.length) :
    ∀ hay, countOcc ('{' :: (g ++ ['}'])) (replaceFirst pat new hay)
      ≤ countOcc ('{' :: (g ++ ['}'])) hay := by
  intro hay
  induction hay with
  | nil => simp [replaceFirst]
  | cons c rest ih =>
    by_cases hp : pat.isPrefixOf (c :: rest) = true
    · simp only [replaceFirst, if_pos hp]
      rw [countOcc_append_of_brace_notMem hn1]
      have hdec := eq_append_of_isPrefixOf hp
      calc countOcc ('{' :: (g ++ ['}'])) ((c :: rest).drop pat.length)
          ≤ countOcc ('{' :: (g ++ ['}']))
              (pat ++ (c :: rest).drop pat.length) := countOcc_le_append
        _ = countOcc ('{' :: (g ++ ['}'])) (c :: rest) := by rw [← hdec]
    · simp only [replaceFirst, if_neg hp, countOcc]
      refine Nat.add_le_add ?_ ih
      by_cases hq : ('{' :: (g ++ ['}'])).isPrefixOf
          (c :: replaceFirst pat new rest) = true
      · simp only [List.isPrefixOf, Bool.and_eq_true, beq_iff_eq] at hq
        have htail := isPrefixOf_replaceFirst_rev hn2 rest (g ++ ['}']) g rfl
          (by simp only [List.length_append, List.length_singleton]; omega) hq.2
        have : ('{' :: (g ++ ['}'])).isPrefixOf (c :: rest) = true := by
          simp only [List.isPrefixOf, Bool.and_eq_true, beq_iff_eq]
          exact ⟨hq.1, htail⟩
        simp [List.isPrefixOf, hq.1, hq.2, htail, this]
      · simp [hq]

/-! ### Specification-side definitions for the refinement claims -/

/-- First containment match of an ordered normalization table, the value
verbatim when nothing matches (the specification's "first match of the
ordered table" rule, written as a direct recursion). -/
def firstTableMatch : List (Str × Str) → Str → Str → Str
  | [], _, v => v
  | (k, n) :: rest, lv, v =>
    if containsSub k lv then n else firstTableMatch rest lv v

/-- The treatment normalizer as the amended specification words it:
`"PTA + Stent"` when both a pta/angioplasty term and a stent term occur
(balloon does NOT count towards the combination), else the first match
of the ordered table, else the value verbatim. -/
def treatment_spec (value : Str) : Str :=
  let lv := pyLower value
  if (containsSub ("pta".data) lv || containsSub ("angioplasty".data) lv)
      && containsSub ("stent".data) lv then
    ("PTA + Stent".data)
  else firstTableMatch treatmentsTable lv value

/-- The code's table loop and the specification's ordered-table rule
agree. -/
theorem findSome_eq_firstTableMatch (T : List (Str × Str)) (lv v : Str) :
    (match T.findSome?
        (fun kv => if containsSub kv.1 lv then some kv.2 else none) with
     | some n => n
     | none => v) = firstTableMatch T lv v := by
  induction T with
  | nil => rfl
  | cons kv rest ih =>
    by_cases h : containsSub kv.1 lv = true <;>
      simp [List.findSome?_cons, firstTableMatch, h, ih]

/-- C1 (amended): `_normalize_treatment` returns "PTA + Stent" exactly
when a pta/angioplasty term and a stent term are both present (balloon
combinations fall through to the table), else the first match of the
ordered table, else the value verbatim; "PTA and stent" normalizes to
"PTA + Stent". -/
theorem treatment_normalizer_amended :
    (∀ value : Str, normalize_treatment value = treatment_spec value)
    ∧ normalize_treatment ("PTA and stent".data) = ("PTA + Stent".data) := by
  refine ⟨fun value => ?_, by decide⟩
  simp only [normalize_treatment, treatment_spec]
  by_cases h : ((containsSub ("pta".data) (pyLower value)
      || containsSub ("angioplasty".data) (pyLower value))
      && containsSub ("stent".data) (pyLower value)) = true
  · rw [if_pos h, if_pos h]
  · rw [if_neg h, if_neg h]
    exact findSome_eq_firstTableMatch treatmentsTable (pyLower value) value

/-- C1 counterexample: "balloon and stent" contains a balloon term and a
stent term, yet the code returns "PTA", not the "PTA + Stent" the claim
requires. -/
theorem treatment_claim_counterexample :
    containsSub ("balloon".data) (pyLower ("balloon and stent".data)) = true
    ∧ containsSub ("stent".data) (pyLower ("balloon and stent".data)) = true
    ∧ normalize_treatment ("balloon and stent".data) = ("PTA".data)
    ∧ (("PTA".data : Str) ≠ ("PTA + Stent".data)) := by
  refine ⟨by decide, by decide, by decide, by decide⟩

/-- C3 (amended): the occlusion-length normalizer appends " cm" when the
phrase contains "centimeter" or "cm" (this check comes first), else
" mm" when it contains "millimeter" or "mm", else " cm"; with no numeric
token the value is returned verbatim; and the worked example resolves to
`SetVesselField superficial_femoral occlusion_length "8 cm"`. -/
theorem length_normalizer_amended :
    (∀ value n : Str, firstNumber value = some n →
      ((containsSub ("centimeter".data) value
          || containsSub ("cm".data) value) = true →
        normalize_length value = n ++ (" cm".data))
      ∧ ((containsSub ("centimeter".data) value
          || containsSub ("cm".data) value) = false →
        (containsSub ("millimeter".data) value
          || containsSub ("mm".data) value) = true →
        normalize_length value = n ++ (" mm".data))
      ∧ ((containsSub ("centimeter".data) value
          || containsSub ("cm".data) value) = false →
        (containsSub ("millimeter".data) value
          || containsSub ("mm".data) value) = false →
        normalize_length value = n ++ (" cm".data)))
    ∧ (∀ value : Str, firstNumber value = none → normalize_length value = value)
    ∧ parse_set_command ("superficial femoral occlusion".data) ("8 centimeters".data)
        = Cmd.setVesselField ("superficial_femoral".data) ("occlusion_length".data)
            ("8 cm".data) := by
  refine ⟨fun value n hn => ?_, fun value hn => ?_, by decide⟩
  · unfold normalize_length
    rw [hn]
    refine ⟨fun hcm => by simp [hcm], fun hcm hmm => by simp [hcm, hmm],
      fun hcm hmm => by simp [hcm, hmm]⟩
  · unfold normalize_length
    rw [hn]

/-- C3 counterexample: "5 cmm" contains "mm", so the claim demands unit
"mm", but the code's cm-check fires first and yields "5 cm". -/
theorem length_claim_counterexample :
    containsSub ("mm".data) ("5 cmm".data) = true
    ∧ normalize_length ("5 cmm".data) = ("5 cm".data)
    ∧ (("5 cm".data : Str) ≠ ("5 mm".data)) := by
  refine ⟨by decide, by decide, by decide⟩

/-- C2: when neither the exact `{vessel_prop}` placeholder nor the
coarse `{vessel}` placeholder is present, the headless handler reports
field-not-present with the buffer unchanged and the fallback path
synthesizes a phrase, but the MVP (GUI) handler silently does nothing:
it returns the unchanged buffer with NO report, contradicting the
claim's "never a silent no-op". -/
theorem mvp_vessel_field_silent :
    mvp_handle_set_vessel_field ("Patient stable.".data) ("popliteal".data)
        ("treatment".data) ("Stent".data)
      = (("Patient stable.".data), none)
    ∧ handle_set_vessel_field ("Patient stable.".data) ("popliteal".data)
        ("treatment".data) ("Stent".data)
      = (("Patient stable.".data), Report.fieldNotPresent)
    ∧ handle_set_vessel_field ("Vessel: {popliteal}".data) ("popliteal".data)
        ("treatment".data) ("Stent".data)
      = (("Vessel: Treatment: Stent".data), Report.success)
    ∧ handle_set_vessel_field ("Length: {popliteal}".data) ("popliteal".data)
        ("occlusion_length".data) ("8 cm".data)
      = (("Length: Occlusion: 8 cm".data), Report.success) := by
  refine ⟨by decide, by decide, by decide, by decide⟩

/-- C6: with a known macro name, `handle_insert_macro` overwrites the
whole buffer (independently of its prior content) with the template in
which every `{date}` is substituted by the current date, and no `{date}`
placeholder survives; with an unknown name it reports macro-not-found
and leaves the buffer unchanged.  The hypotheses record the relevant
properties of the `"%B %d, %Y"` date string: brace-free and at least
five characters. -/
theorem insert_overwrites_buffer (macros : List (Str × Str))
    (today buf macroName : Str)
    (h1 : '{' ∉ today) (h2 : '}' ∉ today) (h3 : 5 ≤ today.length) :
    (∀ t, macros.lookup macroName = some t →
      handle_insert_macro_hl macros today buf macroName
          = (pyReplaceAll t ("{date}".data) today, Report.success)
        ∧ containsSub ("{date}".data)
            (pyReplaceAll t ("{date}".data) today) = false)
    ∧ (macros.lookup macroName = none →
        handle_insert_macro_hl macros today buf macroName
          = (buf, Report.macroNotFound)) := by
  constructor
  · intro t ht
    have e1 : ("{date}".data : Str) = '{' :: (("date".data) ++ ['}']) := by decide
    have hres : containsSub ("{date}".data)
        (pyReplaceAll t ("{date}".data) today) = false := by
      rw [e1]
      show containsSub ('{' :: (("date".data) ++ ['}']))
        (replaceAllGo '{' (("date".data) ++ ['}']) today 0 t) = false
      exact replaceAll_no_residual h1 h2 (by simpa using h3) t.length t (Nat.le_refl _)
    constructor
    · simp only [handle_insert_macro_hl, ht]
      by_cases hc : containsSub ("{date}".data) t = true
      · rw [if_pos hc]
      · rw [if_neg hc, replaceAll_of_not_contains (by simpa using hc)]
    · exact hres
  · intro ht
    simp [handle_insert_macro_hl, ht]

/-- C6 witness at a concrete macro mapping, date and buffer. -/
theorem insert_overwrites_witness :
    ('{' ∉ ("October 12, 2026".data : Str))
    ∧ ('}' ∉ ("October 12, 2026".data : Str))
    ∧ 5 ≤ ("October 12, 2026".data : Str).length
    ∧ handle_insert_macro_hl
        [(("vascular_procedure".data), ("Date: {date}. Side: {side}.".data))]
        ("October 12, 2026".data) ("old buffer".data) ("vascular_procedure".data)
        = (pyReplaceAll ("Date: {date}. Side: {side}.".data) ("{date}".data)
            ("October 12, 2026".data), Report.success)
    ∧ containsSub ("{date}".data)
        (pyReplaceAll ("Date: {date}. Side: {side}.".data) ("{date}".data)
          ("October 12, 2026".data)) = false := by
  refine ⟨by decide, by decide, by decide, ?_, ?_⟩
  · exact ((insert_overwrites_buffer _ _ _ _ (by decide) (by decide)
      (by decide)).1 _ (by decide)).1
  · exact ((insert_overwrites_buffer
      [(("vascular_procedure".data), ("Date: {date}. Side: {side}.".data))]
      ("October 12, 2026".data) ("old buffer".data) ("vascular_procedure".data)
      (by decide) (by decide) (by decide)).1 _ (by decide)).2

/-- C7: inserting the same macro twice with the same date yields exactly
the state a single insertion yields, for every macro mapping, macro name
and starting buffer. -/
theorem insert_idempotent (macros : List (Str × Str))
    (today buf macroName : Str) :
    handle_insert_macro_hl macros today
        (handle_insert_macro_hl macros today buf macroName).1 macroName
      = handle_insert_macro_hl macros today buf macroName := by
  cases h : macros.lookup macroName <;>
    simp [handle_insert_macro_hl, h]

/-- Rewriting `placeholderOf` into head-cons form. -/
theorem placeholderOf_eq (f : Str) : placeholderOf f = '{' :: (f ++ ['}']) := rfl

/-- C5 (amended): provided the substituted value is brace-free and at
least as long as the placeholder's interior plus one, a successful
`set_field` replaces exactly the first occurrence of the targeted
placeholder (its count drops by exactly one) and the count of every
placeholder with interior strictly shorter than the value never
increases; an unsuccessful call leaves the buffer unchanged; the same
single-occurrence decrement holds for `set_vessel_field` through its
exact placeholder. -/
theorem substitution_counts_amended (buf field value : Str)
    (hf1 : '{' ∉ field) (hn1 : '{' ∉ value) (hn2 : '}' ∉ value)
    (hlen : field.length + 1 ≤ value.length) :
    (containsSub (placeholderOf field) buf = true →
      handle_set_field buf field value
          = (replaceFirst (placeholderOf field) value buf, Report.success)
        ∧ countOcc (placeholderOf field)
              (replaceFirst (placeholderOf field) value buf) + 1
            = countOcc (placeholderOf field) buf
        ∧ ∀ g : Str, g.length + 1 ≤ value.length →
            countOcc (placeholderOf g)
                (replaceFirst (placeholderOf field) value buf)
              ≤ countOcc (placeholderOf g) buf)
    ∧ (containsSub (placeholderOf field) buf = false →
        handle_set_field buf field value = (buf, Report.fieldNotPresent))
    ∧ (∀ vessel prop : Str,
        '{' ∉ vessel → '{' ∉ prop →
        (vessel ++ '_' :: prop).length + 1 ≤ value.length →
        containsSub (placeholderOf (vessel ++ '_' :: prop)) buf = true →
        (handle_set_vessel_field buf vessel prop value).1
            = replaceFirst (placeholderOf (vessel ++ '_' :: prop)) value buf
          ∧ countOcc (placeholderOf (vessel ++ '_' :: prop))
                ((handle_set_vessel_field buf vessel prop value).1) + 1
              = countOcc (placeholderOf (vessel ++ '_' :: prop)) buf) := by
  refine ⟨fun hc => ?_, fun hc => ?_, fun vessel prop hv hp hlen2 hc => ?_⟩
  · have hc' : containsSub ('{' :: (field ++ ['}'])) buf = true := by
      rw [← placeholderOf_eq]; exact hc
    refine ⟨by simp [handle_set_field, hc], ?_, fun g hg => ?_⟩
    · rw [placeholderOf_eq]
      exact countOcc_replaceFirst hf1 hn1 hn2 hlen buf hc'
    · rw [placeholderOf_eq field, placeholderOf_eq g]
      exact countOcc_replaceFirst_le hn1 hn2 hg buf
  · simp [handle_set_field, hc]
  · have hbr : '{' ∉ vessel ++ '_' :: prop := by
      intro hm
      rcases List.mem_append.mp hm with hm | hm
      · exact hv hm
      · rcases List.mem_cons.mp hm with hm | hm
        · exact absurd hm.symm (by decide)
        · exact hp hm
    have hc' : containsSub ('{' :: ((vessel ++ '_' :: prop) ++ ['}'])) buf = true := by
      rw [← placeholderOf_eq]; exact hc
    have hfst : (handle_set_vessel_field buf vessel prop value).1
        = replaceFirst (placeholderOf (vessel ++ '_' :: prop)) value buf := by
      simp [handle_set_vessel_field, hc]
    refine ⟨hfst, ?_⟩
    rw [hfst, placeholderOf_eq]
    exact countOcc_replaceFirst hbr hn1 hn2 (by simpa using hlen2) buf hc'

/-- C5 witness: filling one of two `{note}` placeholders removes exactly
one occurrence. -/
theorem substitution_counts_witness :
    ('{' ∉ ("note".data : Str)) ∧ ('{' ∉ ("stable".data : Str))
    ∧ ('}' ∉ ("stable".data : Str))
    ∧ ("note".data : Str).length + 1 ≤ ("stable".data : Str).length
    ∧ containsSub (placeholderOf ("note".data)) ("A: {note} B: {note}".data) = true
    ∧ countOcc (placeholderOf ("note".data))
          (replaceFirst (placeholderOf ("note".data)) ("stable".data)
            ("A: {note} B: {note}".data)) + 1
        = countOcc (placeholderOf ("note".data)) ("A: {note} B: {note}".data) := by
  refine ⟨by decide, by decide, by decide, by decide, by decide, ?_⟩
  exact ((substitution_counts_amended ("A: {note} B: {note}".data) ("note".data)
    ("stable".data) (by decide) (by decide) (by decide) (by decide)).1
    (by decide)).2.1

/-- C5 counterexample: with an unrestricted value the claim fails — a
value containing placeholders increases the number of placeholder
occurrences (first group).  The amendment's value hypotheses are each
forced by a failure: a brace-free value shorter than the placeholder
interior can re-glue the replaced occurrence, so the targeted count is
NOT reduced (second group, value "ot" into the buffer rendered
"{n{note}e}"); and a brace-free value of exactly the
interior's length plus one can create a fresh placeholder whose
interior is exactly as long as the value, so non-increase holds only
for strictly shorter interiors (third group, value "stain" into the
buffer rendered "{{note}}" yields "{stain}"). -/
theorem substitution_claim_counterexample :
    (handle_set_field ("{note}".data) ("note".data) ("{a} {a}".data)
        = (("{a} {a}".data), Report.success)
      ∧ countOcc ("{a}".data) ("{note}".data) = 0
      ∧ countOcc ("{a}".data) ("{a} {a}".data) = 2)
    ∧ (handle_set_field ("{n{note}e}".data) ("note".data) ("ot".data)
        = (("{note}".data), Report.success)
      ∧ countOcc ("{note}".data) ("{n{note}e}".data) = 1
      ∧ countOcc ("{note}".data) ("{note}".data) = 1
      ∧ ('{' ∉ ("ot".data : Str)) ∧ ('}' ∉ ("ot".data : Str)))
    ∧ (handle_set_field ("{{note}}".data) ("note".data) ("stain".data)
        = (("{stain}".data), Report.success)
      ∧ countOcc ("{stain}".data) ("{{note}}".data) = 0
      ∧ countOcc ("{stain}".data) ("{stain}".data) = 1
      ∧ ('{' ∉ ("stain".data : Str)) ∧ ('}' ∉ ("stain".data : Str))
      ∧ ("stain".data : Str).length = ("note".data : Str).length + 1) := by
  refine ⟨⟨by decide, by decide, by decide⟩,
    ⟨by decide, by decide, by decide, by decide, by decide⟩,
    by decide, by decide, by decide, by decide, by decide, by decide⟩

/-- When the first containment match of the catalog is `w` and some
property keyword is present, the vessel loop emits a vessel command for
`w`. -/
theorem vesselLoop_first_match (fn v : Str) :
    ∀ (L : List Str) (w : Str),
      L.find? (fun x => containsSub x fn) = some w →
      hasPropKeyword fn = true →
      ∃ pr val, vesselLoop fn v L = some (.setVesselField (underscore w) pr val) := by
  intro L
  induction L with
  | nil => intro w h _; simp at h
  | cons x xs ih =>
    intro w h hk
    by_cases hc : containsSub x fn = true
    · have hw : w = x := by
        rw [List.find?_cons] at h
        simp only [hc] at h
        exact (Option.some.inj h).symm
      subst hw
      simp only [vesselLoop, hc, if_true]
      by_cases p1 : (containsSub ("occlusion".data) fn
          || containsSub ("length".data) fn) = true
      · exact ⟨_, _, by rw [if_pos p1]⟩
      · rw [if_neg p1]
        by_cases p2 : containsSub ("treatment".data) fn = true
        · exact ⟨_, _, by rw [if_pos p2]⟩
        · rw [if_neg p2]
          by_cases p3 : containsSub ("tasc".data) fn = true
          · exact ⟨_, _, by rw [if_pos p3]⟩
          · rw [if_neg p3]
            by_cases p4 : containsSub ("calcification".data) fn = true
            · exact ⟨_, _, by rw [if_pos p4]⟩
            · exfalso
              have hab : (containsSub ("occlusion".data) fn
                  || containsSub ("length".data) fn) = false := by
                revert p1
                cases (containsSub ("occlusion".data) fn
                  || containsSub ("length".data) fn) <;> simp
              obtain ⟨ha, hb⟩ := Bool.or_eq_false_iff.mp hab
              have e2 : containsSub ("treatment".data) fn = false := by
                revert p2; cases containsSub ("treatment".data) fn <;> simp
              have e3 : containsSub ("tasc".data) fn = false := by
                revert p3; cases containsSub ("tasc".data) fn <;> simp
              have e4 : containsSub ("calcification".data) fn = false := by
                revert p4; cases containsSub ("calcification".data) fn <;> simp
              unfold hasPropKeyword at hk
              rw [ha, hb, e2, e3, e4] at hk
              simp at hk
    · have hc0 : containsSub x fn = false := by
        revert hc; cases containsSub x fn <;> simp
      have hxs : xs.find? (fun x => containsSub x fn) = some w := by
        rw [List.find?_cons] at h
        simp only [hc0] at h
        exact h
      obtain ⟨pr, val, hres⟩ := ih w hxs hk
      exact ⟨pr, val, by simp only [vesselLoop, hc0]; exact hres⟩

/-- C4 (amended): whenever the field phrase contains at least one
catalog vessel name AND one of the property keywords
(occlusion/length/treatment/tasc/calcification), `resolve` targets the
first containment match of the catalog in catalog order — even when a
later, more specific name also matches.  (Without a property keyword the
vessel loop falls through to the non-vessel field logic.) -/
theorem vessel_first_match_amended (fn v w : Str)
    (hw : vessel_names.find? (fun x => containsSub x fn) = some w)
    (hk : hasPropKeyword fn = true) :
    ∃ pr val, parse_set_command fn v = .setVesselField (underscore w) pr val := by
  obtain ⟨pr, val, h⟩ := vesselLoop_first_match fn v vessel_names w hw hk
  exact ⟨pr, val, by simp only [parse_set_command, h]⟩

/-- C4 witness: "tibial peroneal trunk occlusion" contains both the
specific vessel "tibial peroneal trunk" (last in the catalog) and
"peroneal" (earlier); the earlier containment match wins. -/
theorem vessel_first_match_witness :
    vessel_names.find?
        (fun x => containsSub x ("tibial peroneal trunk occlusion".data))
      = some ("peroneal".data)
    ∧ hasPropKeyword ("tibial peroneal trunk occlusion".data) = true
    ∧ containsSub ("tibial peroneal trunk".data)
        ("tibial peroneal trunk occlusion".data) = true
    ∧ ∃ pr val,
        parse_set_command ("tibial peroneal trunk occlusion".data) ("5 cm".data)
          = Cmd.setVesselField (underscore ("peroneal".data)) pr val := by
  refine ⟨by decide, by decide, by decide,
    vessel_first_match_amended _ _ _ (by decide) (by decide)⟩

/-- C4 counterexample: the phrase "popliteal" contains the catalog
vessel "popliteal", yet `resolve` targets no vessel at all (there is no
property keyword, so the loop falls through to the generic field). -/
theorem vessel_claim_counterexample :
    containsSub ("popliteal".data) ("popliteal".data) = true
    ∧ cmdVessel (parse_set_command ("popliteal".data) ("patent".data)) = none
    ∧ parse_set_command ("popliteal".data) ("patent".data)
        = Cmd.setField ("popliteal".data) ("patent".data) := by
  refine ⟨by decide, by decide, by decide⟩

/-- Every command the vessel loop emits is a vessel command. -/
theorem vesselLoop_shape (fn v : Str) :
    ∀ (L : List Str) (c : Cmd), vesselLoop fn v L = some c →
      ∃ a b d, c = .setVesselField a b d := by
  intro L
  induction L with
  | nil => intro c h; simp [vesselLoop] at h
  | cons x xs ih =>
    intro c h
    simp only [vesselLoop] at h
    by_cases hc : containsSub x fn = true
    · rw [if_pos hc] at h
      by_cases p1 : (containsSub ("occlusion".data) fn
          || containsSub ("length".data) fn) = true
      · rw [if_pos p1] at h
        exact ⟨_, _, _, (Option.some.inj h).symm⟩
      · rw [if_neg p1] at h
        by_cases p2 : containsSub ("treatment".data) fn = true
        · rw [if_pos p2] at h
          exact ⟨_, _, _, (Option.some.inj h).symm⟩
        · rw [if_neg p2] at h
          by_cases p3 : containsSub ("tasc".data) fn = true
          · rw [if_pos p3] at h
            exact ⟨_, _, _, (Option.some.inj h).symm⟩
          · rw [if_neg p3] at h
            by_cases p4 : containsSub ("calcification".data) fn = true
            · rw [if_pos p4] at h
              exact ⟨_, _, _, (Option.some.inj h).symm⟩
            · rw [if_neg p4] at h
              exact ih c h
    · rw [if_neg hc] at h
      exact ih c h

/-- No containment match in the catalog means the loop yields nothing. -/
theorem vesselLoop_none (fn v : Str) :
    ∀ L : List Str, L.find? (fun x => containsSub x fn) = none →
      vesselLoop fn v L = none := by
  intro L
  induction L with
  | nil => intro _; rfl
  | cons x xs ih =>
    intro h
    rw [List.find?_cons] at h
    have hc : containsSub x fn = false := by
      by_contra hcc
      have hcc' : containsSub x fn = true := by
        revert hcc; cases containsSub x fn <;> simp
      simp only [hcc'] at h
      exact Option.noConfusion h
    simp only [hc] at h
    simp only [vesselLoop, hc]
    exact ih h

/-- C9: `resolve` is total — it always returns a `SetField` or a
`SetVesselField`, never nothing and never an error — and when no vessel
name and no priority keyword matches, it falls back to the phrase itself
with spaces replaced by underscores, passing the value through
unchanged. -/
theorem resolve_total_fallback (fn v : Str) :
    ((∃ f w, parse_set_command fn v = .setField f w)
      ∨ (∃ vs pr w, parse_set_command fn v = .setVesselField vs pr w))
    ∧ (vessel_names.find? (fun x => containsSub x fn) = none →
        keywordHit fn = false →
        parse_set_command fn v = .setField (underscore fn) v) := by
  constructor
  · cases h : vesselLoop fn v vessel_names with
    | some c =>
      obtain ⟨a, b, d, rfl⟩ := vesselLoop_shape fn v vessel_names c h
      exact Or.inr ⟨a, b, d, by simp only [parse_set_command, h]⟩
    | none =>
      left
      simp only [parse_set_command, h]
      split_ifs <;> exact ⟨_, _, rfl⟩
  · intro hf hk
    have hl := vesselLoop_none fn v vessel_names hf
    simp only [parse_set_command, hl]
    unfold keywordHit at hk
    have h1 : containsSub ("side".data) fn = false := by
      revert hk; cases containsSub ("side".data) fn <;> simp
    have h2 : containsSub ("laterality".data) fn = false := by
      revert hk; cases containsSub ("laterality".data) fn <;> simp
    have h3 : containsSub ("access".data) fn = false := by
      revert hk; cases containsSub ("access".data) fn <;> simp
    have h4 : containsSub ("sheath".data) fn = false := by
      revert hk; cases containsSub ("sheath".data) fn <;> simp
    have h5 : containsSub ("closure".data) fn = false := by
      revert hk; cases containsSub ("closure".data) fn <;> simp
    have h6 : containsSub ("mynx".data) fn = false := by
      revert hk; cases containsSub ("mynx".data) fn <;> simp
    rw [if_neg (by simp [h1, h2]), if_neg (by simp [h3]),
      if_neg (by simp [h4]), if_neg (by simp [h5, h6])]

/-- C9 witness: "operative findings" matches no vessel and no priority
keyword, so the generic fallback produces `operative_findings` with the
value untouched. -/
theorem resolve_total_witness :
    vessel_names.find?
        (fun x => containsSub x ("operative findings".data)) = none
    ∧ keywordHit ("operative findings".data) = false
    ∧ parse_set_command ("operative findings".data) ("stable".data)
        = Cmd.setField (underscore ("operative findings".data)) ("stable".data) := by
  refine ⟨by decide, by decide,
    (resolve_total_fallback ("operative findings".data) ("stable".data)).2
      (by decide) (by decide)⟩

/-- C10: the set/fill pattern is anchored at the start of the cleaned
transcript — a transcript whose cleaned text does not begin with "set"
or "fill" can never classify as `SetField`/`SetVesselField`, and
"please set side to left" is plain narration despite containing
"set ... to ...". -/
theorem set_pattern_anchored :
    (∀ text : Str,
      ("set".data).isPrefixOf (cleanText text) = false →
      ("fill".data).isPrefixOf (cleanText text) = false →
      isSetResult (parse text) = false)
    ∧ parse ("please set side to left".data) = none := by
  refine ⟨fun text h1 h2 => ?_, by decide⟩
  have hm : matchSetFill (cleanText text) = none := by
    unfold matchSetFill
    rw [if_neg (by simp [h1]), if_neg (by simp [h2])]
  simp only [parse, hm]
  split_ifs <;> rfl

/-- C10 witness: the example transcript itself. -/
theorem set_pattern_anchored_witness :
    ("set".data).isPrefixOf (cleanText ("please set side to left".data)) = false
    ∧ ("fill".data).isPrefixOf (cleanText ("please set side to left".data)) = false
    ∧ isSetResult (parse ("please set side to left".data)) = false := by
  refine ⟨by decide, by decide,
    set_pattern_anchored.1 ("please set side to left".data) (by decide) (by decide)⟩

/-- C8: text matching none of the command patterns classifies as `none`
(narration, never an error), and appending it as narration keeps the old
buffer as a prefix: the buffer becomes old ++ " " ++ text. -/
theorem narration_fallthrough (text buf : Str)
    (h1 : insertGuard (cleanText text) = false)
    (h2 : matchSetFill (cleanText text) = none)
    (h3 : (containsSub ("save procedure".data) (cleanText text)
        || containsSub ("save note".data) (cleanText text)
        || containsSub ("complete procedure".data) (cleanText text)) = false)
    (h4 : (containsSub ("clear buffer".data) (cleanText text)
        || containsSub ("start over".data) (cleanText text)) = false)
    (h5 : (containsSub ("show fields".data) (cleanText text)
        || containsSub ("what fields".data) (cleanText text)) = false) :
    parse text = none
    ∧ append_narration buf text = buf ++ (" ".data) ++ text
    ∧ buf <+: append_narration buf text := by
  refine ⟨?_, rfl, ?_⟩
  · simp only [parse, h2]
    rw [if_neg (by simp [h1]), if_neg (by simp [h3]),
      if_neg (by simp [h4]), if_neg (by simp [h5])]
  · show buf <+: buf ++ (" ".data) ++ text
    rw [List.append_assoc]
    exact List.prefix_append buf _

/-- C8 witness: a narration sentence that matches no command pattern. -/
theorem narration_fallthrough_witness :
    insertGuard (cleanText ("patient tolerated the procedure well".data)) = false
    ∧ matchSetFill (cleanText ("patient tolerated the procedure well".data)) = none
    ∧ parse ("patient tolerated the procedure well".data) = none
    ∧ append_narration ("Note:".data) ("patient tolerated the procedure well".data)
        = ("Note:".data) ++ (" ".data) ++ ("patient tolerated the procedure well".data)
    ∧ (("Note:".data) : Str) <+: append_narration ("Note:".data)
        ("patient tolerated the procedure well".data) := by
  obtain ⟨a, b, c⟩ := narration_fallthrough
    ("patient tolerated the procedure well".data) ("Note:".data)
    (by decide) (by decide) (by decide) (by decide) (by decide)
  exact ⟨by decide, by decide, a, b, c⟩

/-- C3 witness: "8 millimeters" has numeric token "8", no cm-term and a
mm-term, and normalizes to "8 mm". -/
theorem length_normalizer_witness :
    firstNumber ("8 millimeters".data) = some ("8".data)
    ∧ (containsSub ("centimeter".data) ("8 millimeters".data)
        || containsSub ("cm".data) ("8 millimeters".data)) = false
    ∧ (containsSub ("millimeter".data) ("8 millimeters".data)
        || containsSub ("mm".data) ("8 millimeters".data)) = true
    ∧ normalize_length ("8 millimeters".data) = ("8".data) ++ (" mm".data) := by
  refine ⟨by decide, by decide, by decide, ?_⟩
  exact ((length_normalizer_amended.1 ("8 millimeters".data) ("8".data)
    (by decide)).2.1 (by decide) (by decide))
